import Mathlib

/-!
Verification of the resource tree / permission service
(`ziggurat_foundations/models/services/resource.py`).

The database of resources is modelled as a list of rows; each SQLAlchemy
query site is translated into an explicit list operation.  Machine-level
concerns (sessions, locking) disappear: `lock_resource_for_update` is the
pure lookup its query performs, and the bulk `UPDATE` statements become
`List.map` over the rows.  Errors are the four Ziggurat exception kinds
plus the `AttributeError` a `None` dereference raises in Python.
-/

namespace Ziggurat

/-- A row of the `resources` table.  Only the columns this service reads or
writes are modelled. -/
structure Resource where
  resource_id : Int
  parent_id : Option Int
  ordering : Int
  owner_user_id : Option Int := none
  owner_group_id : Option Int := none
deriving DecidableEq, Repr

/-- The `resources` table. -/
abbrev DB := List Resource

/-- `db_session.query(cls.model).filter(cls.model.resource_id == rid).first()`. -/
def findResource (db : DB) (rid : Int) : Option Resource :=
  db.find? (fun r => r.resource_id == rid)

/-- `lock_resource_for_update` (source lines 346-358): select the row by id
(`FOR UPDATE` has no effect in a sequential model).  A `None` id compares
with SQL `NULL` semantics and matches nothing. -/
def lock_resource_for_update (db : DB) (resource_id : Option Int) : Option Resource :=
  match resource_id with
  | none => none
  | some rid => findResource db rid

/-- `path_upper` (source lines 319-344): the recursive CTE walking
`parent_id` links from `object_id` towards the root, returning at most
`depth` rows (the SQL keeps rows with `depth <= :depth`, the start row
having depth 1). -/
def path_upper (db : DB) : Option Int → Nat → List Resource
  | _, 0 => []
  | none, _ + 1 => []
  | some rid, depth + 1 =>
    match findResource db rid with
    | none => []
    | some r => r :: path_upper db r.parent_id depth

/-- `start` is `target`, or `target` is an ancestor of `start`, reachable by
following at most `fuel` parent links (each traversed node must exist in the
table).  Used to state claims about cycle detection. -/
def inParentChain (db : DB) (target : Int) : Int → Nat → Bool
  | _, 0 => false
  | start, fuel + 1 =>
    match findResource db start with
    | none => false
    | some r =>
      start == target ||
        (match r.parent_id with
         | none => false
         | some p => inParentChain db target p fuel)

/-- `query.filter(cls.model.parent_id == parent_id).count()` (source lines
406-409). -/
def childCount (db : DB) (p : Option Int) : Nat :=
  db.countP (fun r => r.parent_id == p)

/-- Number of children of `p` whose `ordering` equals `k`. -/
def childCountOrd (db : DB) (p : Option Int) (k : Int) : Nat :=
  db.countP (fun r => r.parent_id == p && r.ordering == k)

/-- The spec's sibling-ordering invariant for a fixed parent: the `ordering`
values of the children of `p` are exactly `1..N` (N the child count), no
gaps, no duplicates — stated as: every integer `k` is the ordering of
exactly one child when `1 ≤ k ≤ N` and of none otherwise. -/
def Contiguous (db : DB) (p : Option Int) : Prop :=
  ∀ k : Int, childCountOrd db p k = if 1 ≤ k ∧ k ≤ (childCount db p : Int) then 1 else 0

/-- The error kinds `move_to_position` can raise: the four Ziggurat domain
exceptions, and Python's `AttributeError` from dereferencing `None`. -/
inductive MoveErr where
  | treeMissing
  | treePath
  | wrongPosition
  | outOfBoundary
  | attributeError
deriving DecidableEq, Repr

/-- Outcome of `move_to_position`: success with the new table state, or an
exception carrying the table state at the moment of the raise. -/
inductive MoveResult where
  | ok (db : DB)
  | err (e : MoveErr) (db : DB)
deriving DecidableEq, Repr

/-- The bulk `UPDATE` of source lines 420-428: children of `p` whose
`ordering` lies in the inclusive `BETWEEN lo AND hi` range get
`ordering := ordering + delta`. -/
def updateOrderingBetween (db : DB) (p : Option Int) (lo hi delta : Int) : DB :=
  db.map fun r =>
    if r.parent_id = p ∧ lo ≤ r.ordering ∧ r.ordering ≤ hi then
      { r with ordering := r.ordering + delta } else r

/-- The bulk `UPDATE` of source lines 433-437: children of `p` with
`ordering > threshold` get `ordering := ordering + 1`. -/
def updateOrderingAbove (db : DB) (p : Option Int) (threshold : Int) : DB :=
  db.map fun r =>
    if r.parent_id = p ∧ threshold < r.ordering then
      { r with ordering := r.ordering + 1 } else r

/-- The bulk `UPDATE` of source lines 438-442: children of `p` with
`ordering >= threshold` get `ordering := ordering + 1`. -/
def updateOrderingFrom (db : DB) (p : Option Int) (threshold : Int) : DB :=
  db.map fun r =>
    if r.parent_id = p ∧ threshold ≤ r.ordering then
      { r with ordering := r.ordering + 1 } else r

/-- `resource.ordering = to_position; db_session.flush()` (source line 429):
the row(s) with the given id get the new ordering. -/
def setOrdering (db : DB) (rid : Int) (v : Int) : DB :=
  db.map fun r => if r.resource_id = rid then { r with ordering := v } else r

/-- `resource.parent_id = new_parent_id; resource.ordering = to_position;
db_session.flush()` (source lines 443-445). -/
def setParentAndOrdering (db : DB) (rid : Int) (p : Option Int) (v : Int) : DB :=
  db.map fun r =>
    if r.resource_id = rid then { r with parent_id := p, ordering := v } else r

/-- The validation of the `new_parent_id` argument (source lines 382-398).
`new_parent_id = none` models the `noop` sentinel (argument not given);
`some q` models an explicit argument, itself `none` for "move to root".
Returns the exception raised, if any. -/
def checkNewParent (db : DB) (resource_id : Int) (resource : Resource) :
    Option (Option Int) → Option MoveErr
  | none => none
  | some q =>
    if q = resource.parent_id then some .treePath
    else if lock_resource_for_update db q = none ∧ q ≠ none then some .treeMissing
    else if resource_id ∈ (path_upper db q 1000000).map (fun r => r.resource_id) then
      some .treePath
    else none

/-- The "move on same branch" block (source lines 415-430).  `parent` is the
row locked at lines 379-381; when the moved resource sits at the root it is
`None` and `parent.resource_id` raises `AttributeError`. -/
def sameBranchMove (db : DB) (resource : Resource) (parent : Option Resource)
    (to_position : Int) : MoveResult :=
  match parent with
  | none => .err .attributeError db
  | some parentRes =>
    let lo := min resource.ordering to_position
    let hi := max resource.ordering to_position
    let move_down := to_position < resource.ordering
    let db1 :=
      if move_down then updateOrderingBetween db (some parentRes.resource_id) lo hi 1
      else updateOrderingBetween db (some parentRes.resource_id) lo hi (-1)
    .ok (setOrdering db1 resource.resource_id to_position)

/-- The "move between branches" block (source lines 431-445): shift the old
siblings above the moved resource's ordering by +1, make room under the new
parent by shifting orderings ≥ `to_position` by +1, then rewrite the moved
row. -/
def crossBranchMove (db : DB) (resource : Resource) (q : Option Int)
    (to_position : Int) : DB :=
  let db1 := updateOrderingAbove db resource.parent_id resource.ordering
  let db2 := updateOrderingFrom db1 q to_position
  setParentAndOrdering db2 resource.resource_id q to_position

/-- `parent_id = resource.parent_id if new_parent_id is noop else
new_parent_id` (source line 407): the effective target parent whose
children are counted for the boundary check. -/
def effectiveParent (resource : Resource) : Option (Option Int) → Option Int
  | none => resource.parent_id
  | some q => q

/-- `move_to_position` (source lines 360-446).  `new_parent_id = none` is
the `noop` sentinel.  A missing moved resource gives `resource = None`, so
`resource.parent_id` raises `AttributeError`.  The current parent row is
locked (read) at lines 379-381; since reads are pure here, passing that
lookup to `sameBranchMove` at the use site is the same value. -/
def move_to_position (db : DB) (resource_id : Int) (to_position : Int)
    (new_parent_id : Option (Option Int)) : MoveResult :=
  match lock_resource_for_update db (some resource_id) with
  | none => .err .attributeError db
  | some resource =>
    match checkNewParent db resource_id resource new_parent_id with
    | some e => .err e db
    | none =>
      if to_position = resource.ordering ∧ new_parent_id = none then
        .err .wrongPosition db
      else if to_position < 1 then .err .outOfBoundary db
      else if ((childCount db (effectiveParent resource new_parent_id) : Int) <
            to_position ∧ new_parent_id = none) ∨
          (childCount db (effectiveParent resource new_parent_id) : Int) + 1 <
            to_position then
        .err .outOfBoundary db
      else
        match new_parent_id with
        | none =>
          sameBranchMove db resource
            (lock_resource_for_update db resource.parent_id) to_position
        | some q => .ok (crossBranchMove db resource q to_position)

/-! ## Permission resolution -/

/-- A row of the `users` table (only the identity is read by this service). -/
structure User where
  id : Int
deriving DecidableEq, Repr

/-- A row of the `groups` table. -/
structure Group where
  id : Int
deriving DecidableEq, Repr

/-- A row of the `users_resources_permissions` table. -/
structure UserResourcePermission where
  user_id : Int
  resource_id : Int
  perm_name : String
deriving DecidableEq, Repr

/-- A row of the `groups_resources_permissions` table. -/
structure GroupResourcePermission where
  group_id : Int
  resource_id : Int
  perm_name : String
deriving DecidableEq, Repr

/-- The permission-related tables: users, groups, the user↔group membership
relation (pairs `(user_id, group_id)`), and the two grant tables.
`user.groups` and `group.users` are both ORM views of the membership
relation. -/
structure PermDB where
  users : List User
  groups : List Group
  memberships : List (Int × Int)
  userResourcePermissions : List UserResourcePermission
  groupResourcePermissions : List GroupResourcePermission
deriving DecidableEq, Repr

/-- `user.groups`: the groups the user belongs to. -/
def userGroups (pdb : PermDB) (u : User) : List Group :=
  pdb.groups.filter (fun g => pdb.memberships.contains (u.id, g.id))

/-- `group.users`: the members of a group. -/
def groupUsers (pdb : PermDB) (g : Group) : List User :=
  pdb.users.filter (fun u => pdb.memberships.contains (u.id, g.id))

/-- A permission name or the `ALL_PERMISSIONS` sentinel carried by
ownership grants. -/
inductive PermValue where
  | name (s : String)
  | allPermissions
deriving DecidableEq, Repr

/-- `PermissionTuple` (from `ziggurat_foundations.permissions`): one
resolved grant.  The `user` slot is `none` when per-member expansion of a
group grant is suppressed.  The last two slots are `owner` (stems from
ownership) and `allowed`. -/
structure PermissionTuple where
  user : Option User
  perm_name : PermValue
  type : String
  group : Option Group
  resource : Resource
  owner : Bool
  allowed : Bool
deriving DecidableEq, Repr

/-- A `(owner_id, perm_name, type)` row of the union query in
`perms_for_user` (source lines 43-67). -/
structure PermRow where
  owner_id : Int
  perm_name : String
  type : String
deriving DecidableEq, Repr

/-- `dict([(g.id, g) for g in groups]).get(gid)`. -/
def groupsDictGet (gs : List Group) (gid : Int) : Option Group :=
  gs.find? (fun g => g.id == gid)

/-- Permission filter argument of `resource_permissions_for_users`: callers
pass either the `ANY_PERMISSION` sentinel or a one-element list of names
(where the name may itself be the `__any_permission__` wildcard). -/
inductive PermFilter where
  | anyPerm
  | one (s : String)
deriving DecidableEq, Repr

/-- Does a stored grant's permission name pass the filter? -/
def permMatches : PermFilter → String → Bool
  | .anyPerm, _ => true
  | .one s, pn => s == "__any_permission__" || pn == s

/-- Modelled from the spec: `resource_permissions_for_users` lives in
`ziggurat_foundations/permissions.py`, which is not under `src/`.  Per the
spec it returns every PermissionTuple — across all principals — granting a
matching permission on one of the resources, optionally filtered to
specific user/group id sets, optionally suppressing per-member expansion of
group grants (`limit_group_permissions`), optionally omitting group-sourced
rows entirely (`skip_group_perms`) or user-sourced rows
(`skip_user_perms`). -/
def resource_permissions_for_users (pdb : PermDB) (perms : PermFilter)
    (resource_ids : List Int) (user_ids : Option (List Int))
    (group_ids : Option (List Int)) (limit_group_permissions : Bool)
    (skip_group_perms : Bool) (skip_user_perms : Bool)
    (res : Resource) : List PermissionTuple :=
  let userIdOk : Int → Bool := fun uid =>
    match user_ids with
    | none => true
    | some l => l.contains uid
  let groupIdOk : Int → Bool := fun gid =>
    match group_ids with
    | none => true
    | some l => l.contains gid
  let groupTuples : List PermissionTuple :=
    if skip_group_perms then []
    else
      (pdb.groupResourcePermissions.filter (fun gp =>
          resource_ids.contains gp.resource_id && permMatches perms gp.perm_name &&
            groupIdOk gp.group_id)).flatMap (fun gp =>
        match groupsDictGet pdb.groups gp.group_id with
        | none => []
        | some g =>
          if limit_group_permissions then
            [⟨none, .name gp.perm_name, "group", some g, res, false, true⟩]
          else
            ((groupUsers pdb g).filter (fun u => userIdOk u.id)).map (fun u =>
              ⟨some u, .name gp.perm_name, "group", some g, res, false, true⟩))
  let userTuples : List PermissionTuple :=
    if skip_user_perms then []
    else
      (pdb.userResourcePermissions.filter (fun up =>
          resource_ids.contains up.resource_id && permMatches perms up.perm_name &&
            userIdOk up.user_id)).flatMap (fun up =>
        match pdb.users.find? (fun u => u.id == up.user_id) with
        | none => []
        | some u => [⟨some u, .name up.perm_name, "user", none, res, false, true⟩])
  groupTuples ++ userTuples

/-- The group-grant arm of the union query in `perms_for_user` (source
lines 43-55): rows for groups the user belongs to, restricted to the
resource, labelled `'group'`. -/
def perms_for_user_q1 (pdb : PermDB) (res : Resource) (user : User) :
    List PermRow :=
  (pdb.groupResourcePermissions.filter (fun gp =>
      ((userGroups pdb user).map (fun g => g.id)).contains gp.group_id &&
        gp.resource_id == res.resource_id)).map
    (fun gp => ⟨gp.group_id, gp.perm_name, "group"⟩)

/-- The user-grant arm of the union query in `perms_for_user` (source
lines 57-66), labelled `'user'`. -/
def perms_for_user_q2 (pdb : PermDB) (res : Resource) (user : User) :
    List PermRow :=
  (pdb.userResourcePermissions.filter (fun up =>
      up.user_id == user.id && up.resource_id == res.resource_id)).map
    (fun up => ⟨up.user_id, up.perm_name, "user"⟩)

/-- The list comprehension of source lines 70-75 applied to the SQL
`UNION` (which de-duplicates) of the two arms. -/
def perms_for_user_base (pdb : PermDB) (res : Resource) (user : User) :
    List PermissionTuple :=
  ((perms_for_user_q1 pdb res user ++ perms_for_user_q2 pdb res user).dedup).map
    (fun row =>
      ⟨some user, .name row.perm_name, row.type,
        if row.type == "group" then
          groupsDictGet (userGroups pdb user) row.owner_id
        else none,
        res, false, true⟩)

/-- The append of source lines 77-80: all permissions if the user owns the
resource. -/
def perms_for_user_userOwner (pdb : PermDB) (res : Resource) (user : User) :
    List PermissionTuple :=
  if res.owner_user_id = some user.id then
    perms_for_user_base pdb res user ++
      [⟨some user, .allPermissions, "user", none, res, true, true⟩]
  else perms_for_user_base pdb res user

/-- The append of source lines 81-86: all permissions if one of the
user's groups owns the resource (`instance.owner_group_id in
groups_dict`), as the conditional one- or zero-element suffix. -/
def perms_for_user_groupOwner (pdb : PermDB) (res : Resource) (user : User) :
    List PermissionTuple :=
  match res.owner_group_id with
  | none => []
  | some ogid =>
    match groupsDictGet (userGroups pdb user) ogid with
    | none => []
    | some g => [⟨some user, .allPermissions, "group", some g, res, true, true⟩]

/-- `perms_for_user` (source lines 38-88): the union query mapped to
PermissionTuples, followed by the two ownership appends (source lines
77-86). -/
def perms_for_user (pdb : PermDB) (res : Resource) (user : User) :
    List PermissionTuple :=
  perms_for_user_userOwner pdb res user ++ perms_for_user_groupOwner pdb res user

/-- `direct_perms_for_user` (source lines 90-114).  The ownership append at
line 112 passes six arguments; the `allowed` slot takes its default
(`True`, modelled from the spec's PermissionTuple). -/
def direct_perms_for_user (pdb : PermDB) (res : Resource) (user : User) :
    List PermissionTuple :=
  let rows := pdb.userResourcePermissions.filter (fun up =>
    up.user_id == user.id && up.resource_id == res.resource_id)
  let perms : List PermissionTuple := rows.map (fun up =>
    ⟨some user, .name up.perm_name, "user", none, res, false, true⟩)
  if res.owner_user_id = some user.id then
    perms ++ [⟨some user, .allPermissions, "user", none, res, true, true⟩]
  else perms

/-- `group_perms_for_user` (source lines 116-135).  The ownership append
at lines 128-134 is the same code as lines 81-86 of `perms_for_user`, so
the same definition models its conditional suffix. -/
def group_perms_for_user (pdb : PermDB) (res : Resource) (user : User) :
    List PermissionTuple :=
  (resource_permissions_for_users pdb .anyPerm [res.resource_id]
      (some [user.id]) none false false false res).filter
    (fun p => p.type == "group") ++
    perms_for_user_groupOwner pdb res user

/-- Python truthiness of an optional integer column (`None` and `0` are
falsy). -/
def truthyOpt : Option Int → Bool
  | none => false
  | some i => i != 0

/-- `instance.owner`: the ORM relationship resolving `owner_user_id`
against the users table. -/
def resourceOwner (pdb : PermDB) (res : Resource) : Option User :=
  match res.owner_user_id with
  | none => none
  | some uid => pdb.users.find? (fun u => u.id == uid)

/-- `instance.owner_group.users`: members of the owning group (the source
assumes the owning group row exists when `owner_group_id` is set). -/
def resourceOwnerGroupUsers (pdb : PermDB) (res : Resource) :
    Option Group × List User :=
  match res.owner_group_id with
  | none => (none, [])
  | some gid =>
    match groupsDictGet pdb.groups gid with
    | none => (none, [])
    | some g => (some g, groupUsers pdb g)

/-- `users_for_perm` (source lines 137-172). -/
def users_for_perm (pdb : PermDB) (res : Resource) (perm_name : String)
    (user_ids group_ids : Option (List Int))
    (limit_group_permissions skip_group_perms : Bool) : List PermissionTuple :=
  let users_perms := resource_permissions_for_users pdb (.one perm_name)
    [res.resource_id] user_ids group_ids limit_group_permissions
    skip_group_perms false res
  let users_perms :=
    if truthyOpt res.owner_user_id then
      users_perms ++
        [⟨resourceOwner pdb res, .allPermissions, "user", none, res, true, true⟩]
    else users_perms
  if truthyOpt res.owner_group_id && !skip_group_perms then
    users_perms ++ ((resourceOwnerGroupUsers pdb res).2.map (fun u =>
      ⟨some u, .allPermissions, "group", (resourceOwnerGroupUsers pdb res).1,
        res, true, true⟩))
  else users_perms

/-! ## Subtree structure construction -/

/-- One row of the recursive subtree query consumed by
`build_subtree_strut`: the resource and its materialized path (the `'/'`
separated id string, modelled already split into integers). -/
structure SubtreeRow where
  resource : Resource
  path : List Int
deriving DecidableEq, Repr

/-- The nested dictionaries `{'node': ..., 'children': OrderedDict()}`;
children keyed by `resource_id`, insertion order preserved. -/
inductive TreeNode where
  | mk : Option Resource → List (Int × TreeNode) → TreeNode

/-- The `node` entry. -/
def TreeNode.node : TreeNode → Option Resource
  | .mk n _ => n

/-- The `children` entry. -/
def TreeNode.children : TreeNode → List (Int × TreeNode)
  | .mk _ ch => ch

/-- Python `dict[k] = v` on an ordered dict: replace in place if the key is
present, else append. -/
def odSet (m : List (Int × TreeNode)) (k : Int) (v : TreeNode) :
    List (Int × TreeNode) :=
  if m.any (fun kv => kv.1 == k) then
    m.map (fun kv => if kv.1 == k then (k, v) else kv)
  else m ++ [(k, v)]

/-- Python `dict[k]` lookup, `none` standing for a `KeyError`. -/
def odGet (m : List (Int × TreeNode)) (k : Int) : Option TreeNode :=
  (m.find? (fun kv => kv.1 == k)).map (fun kv => kv.2)

/-- Walk `parent_node = parent_node['children'][path_part]` along
`path` and perform `parent_node['children'][k] = v` at the end; `none`
models the `KeyError` the source raises on a dangling path. -/
def insertAtPath : TreeNode → List Int → Int → TreeNode → Option TreeNode
  | .mk n ch, [], k, v => some (.mk n (odSet ch k v))
  | .mk n ch, p :: rest, k, v =>
    match odGet ch p with
    | none => none
    | some child =>
      match insertAtPath child rest k v with
      | none => none
      | some child2 => some (.mk n (odSet ch p child2))
termination_by _t path _k _v => path.length

/-- The `for i, node in enumerate(items)` loop of `build_subtree_strut`. -/
def buildLoop : List SubtreeRow → TreeNode → Option TreeNode
  | [], acc => some acc
  | row :: rest, acc =>
    let newElem : TreeNode := .mk (some row.resource) []
    let normalized_path := row.path.dropLast
    match insertAtPath acc normalized_path row.resource.resource_id newElem with
    | none => none
    | some acc2 => buildLoop rest acc2

/-- `build_subtree_strut` (source lines 295-317): fold the flat ordered
rows into the nested structure, starting from the sentinel
`{'node': None, 'children': OrderedDict()}`. -/
def build_subtree_strut (result : List SubtreeRow) : Option TreeNode :=
  buildLoop result (.mk none [])

/-! ## Concrete tables used in witnesses and counterexamples -/

/-- Two root parents P1, P2; P1 has children 3,4,5 at orderings 1,2,3 and
P2 has children 6,7 at orderings 1,2. -/
def exDb7 : DB :=
  [⟨1, none, 1, none, none⟩, ⟨2, none, 2, none, none⟩,
   ⟨3, some 1, 1, none, none⟩, ⟨4, some 1, 2, none, none⟩,
   ⟨5, some 1, 3, none, none⟩, ⟨6, some 2, 1, none, none⟩,
   ⟨7, some 2, 2, none, none⟩]

/-- A parent 10 with children A=1, B=2, C=3 at orderings 1, 2, 3. -/
def exDbABC : DB :=
  [⟨10, none, 1, none, none⟩, ⟨1, some 10, 1, none, none⟩,
   ⟨2, some 10, 2, none, none⟩, ⟨3, some 10, 3, none, none⟩]

/-- A root node 1 with a single child 2. -/
def exDbChild : DB :=
  [⟨1, none, 1, none, none⟩, ⟨2, some 1, 1, none, none⟩]

/-- Two root-level resources at orderings 1 and 2. -/
def exDbRoots : DB :=
  [⟨1, none, 1, none, none⟩, ⟨2, none, 2, none, none⟩]

/-! ## Helper lemmas -/

theorem findResource_id {db : DB} {rid : Int} {r : Resource}
    (h : findResource db rid = some r) : r.resource_id = rid := by
  have := List.find?_some h
  simpa using this

theorem findResource_mem {db : DB} {rid : Int} {r : Resource}
    (h : findResource db rid = some r) : r ∈ db :=
  List.mem_of_find?_eq_some h

theorem countP_split {α : Type} (l : List α) (p q : α → Bool) :
    l.countP p =
      l.countP (fun a => p a && q a) + l.countP (fun a => p a && !q a) := by
  induction l with
  | nil => simp
  | cons a l ih =>
    simp only [List.countP_cons, ih]
    cases hp : p a <;> cases hq : q a <;> simp [hp, hq] <;> omega

theorem countP_congr' {α : Type} {l : List α} {p q : α → Bool}
    (h : ∀ a ∈ l, p a = q a) : l.countP p = l.countP q := by
  induction l with
  | nil => simp
  | cons a l ih =>
    simp only [List.countP_cons, h a (List.mem_cons_self a l),
      ih (fun b hb => h b (List.mem_cons_of_mem a hb))]

theorem countP_eq_zero_of_not {α : Type} {l : List α} {p : α → Bool}
    (h : ∀ a ∈ l, ¬ p a) : l.countP p = 0 :=
  List.countP_eq_zero.mpr h

/-- With distinct `resource_id`s, a count over rows keyed to one id reduces
to whether the unique such row satisfies the rest of the predicate. -/
theorem countP_unique_id {db : DB} {rid : Int} {r₀ : Resource}
    (hids : (db.map (fun r => r.resource_id)).Nodup)
    (hmem : r₀ ∈ db) (hid : r₀.resource_id = rid) (Q : Resource → Bool) :
    db.countP (fun r => r.resource_id == rid && Q r) = if Q r₀ then 1 else 0 := by
  induction db with
  | nil => exact absurd hmem (List.not_mem_nil r₀)
  | cons a l ih =>
    simp only [List.map_cons, List.nodup_cons, List.mem_map] at hids
    obtain ⟨hnotin, hnd⟩ := hids
    rcases List.mem_cons.mp hmem with rfl | hmem'
    · have hzero : l.countP (fun r => r.resource_id == rid && Q r) = 0 := by
        refine countP_eq_zero_of_not (fun b hb => ?_)
        intro hcontra
        simp only [Bool.and_eq_true, beq_iff_eq] at hcontra
        exact hnotin ⟨b, hb, hcontra.1.trans hid.symm⟩
      simp [List.countP_cons, hzero, hid]
    · have haid : a.resource_id ≠ rid := by
        intro hcontra
        exact hnotin ⟨r₀, hmem', hid.trans hcontra.symm⟩
      simp only [List.countP_cons, ih hnd hmem']
      simp [haid]

/-- If `target` is reachable from `start` by parent links within `fuel`
steps, the recursive ancestor query from `start` reports it. -/
theorem inParentChain_path_upper {db : DB} {target start : Int} {fuel : Nat}
    (h : inParentChain db target start fuel = true) :
    target ∈ (path_upper db (some start) fuel).map (fun r => r.resource_id) := by
  induction fuel generalizing start with
  | zero => simp [inParentChain] at h
  | succ n ih =>
    rw [inParentChain] at h
    cases hfind : findResource db start with
    | none => rw [hfind] at h; simp at h
    | some r =>
      rw [hfind] at h
      rw [path_upper, hfind]
      simp only [List.map_cons, List.mem_cons]
      rcases Bool.or_eq_true_iff.mp h with heq | hrec
      · left
        rw [findResource_id hfind]
        exact (beq_iff_eq.mp heq).symm
      · cases hp : r.parent_id with
        | none => rw [hp] at hrec; simp at hrec
        | some p =>
          rw [hp] at hrec
          exact Or.inr (ih hrec)

/-- Forward evaluation of a validated same-branch call: all checks pass and
the mutation block runs. -/
theorem move_same_eval {db : DB} {rid t pv : Int} {r₀ par : Resource}
    (h₀ : findResource db rid = some r₀)
    (hp : r₀.parent_id = some pv)
    (hpar : findResource db pv = some par)
    (hne : t ≠ r₀.ordering)
    (h1 : 1 ≤ t)
    (h2 : t ≤ (childCount db r₀.parent_id : Int)) :
    move_to_position db rid t none =
      .ok (setOrdering
        (updateOrderingBetween db r₀.parent_id (min r₀.ordering t)
          (max r₀.ordering t) (if t < r₀.ordering then 1 else -1)) rid t) := by
  simp only [move_to_position, lock_resource_for_update, h₀, checkNewParent,
    effectiveParent]
  rw [if_neg (show ¬ (t = r₀.ordering ∧ True) by simp [hne]),
    if_neg (show ¬ t < 1 by omega),
    if_neg (show ¬ (((childCount db r₀.parent_id : Int) < t ∧ True) ∨
        (childCount db r₀.parent_id : Int) + 1 < t) by
      simp only [and_true]; omega)]
  rw [hp]
  simp only [sameBranchMove, hpar, findResource_id hpar]
  by_cases hmv : t < r₀.ordering <;> simp [hmv, hp, findResource_id h₀]

/-- Forward evaluation of a validated cross-branch call. -/
theorem move_cross_eval {db : DB} {rid t j : Int} {r₀ npr : Resource}
    (h₀ : findResource db rid = some r₀)
    (hne : some j ≠ r₀.parent_id)
    (hnp : findResource db j = some npr)
    (hcyc : rid ∉ (path_upper db (some j) 1000000).map (fun r => r.resource_id))
    (h1 : 1 ≤ t) (h2 : t ≤ (childCount db (some j) : Int) + 1) :
    move_to_position db rid t (some (some j)) =
      .ok (crossBranchMove db r₀ (some j) t) := by
  have hchk : checkNewParent db rid r₀ (some (some j)) = none := by
    simp only [checkNewParent]
    rw [if_neg hne]
    rw [if_neg (by simp [lock_resource_for_update, hnp])]
    rw [if_neg hcyc]
  simp only [move_to_position, lock_resource_for_update, h₀, hchk,
    effectiveParent]
  rw [if_neg (show ¬ (t = r₀.ordering ∧
        (some (some j) : Option (Option Int)) = none) by simp),
    if_neg (show ¬ t < 1 by omega),
    if_neg (show ¬ (((childCount db (some j) : Int) < t ∧
          (some (some j) : Option (Option Int)) = none) ∨
        (childCount db (some j) : Int) + 1 < t) by
      simp only [reduceCtorEq, and_false, false_or]; omega)]

/-- The same-branch mutation pipeline acts on each row independently. -/
theorem sameBranch_result_map (db : DB) (p : Option Int) (lo hi δ t rid : Int) :
    setOrdering (updateOrderingBetween db p lo hi δ) rid t =
      db.map (fun r =>
        if r.resource_id = rid then { r with ordering := t }
        else if r.parent_id = p ∧ lo ≤ r.ordering ∧ r.ordering ≤ hi then
          { r with ordering := r.ordering + δ }
        else r) := by
  simp only [setOrdering, updateOrderingBetween, List.map_map]
  refine List.map_congr_left (fun r _ => ?_)
  obtain ⟨ri, rp, ro, ou, og⟩ := r
  simp only [Function.comp]
  split_ifs <;> rfl

/-- The cross-branch mutation pipeline acts on each row independently
(given that the new parent differs from the old one). -/
theorem crossBranch_result_map (db : DB) (r₀ : Resource) (q : Option Int)
    (t : Int) (hne : q ≠ r₀.parent_id) :
    crossBranchMove db r₀ q t =
      db.map (fun r =>
        if r.resource_id = r₀.resource_id then
          { r with parent_id := q, ordering := t }
        else if r.parent_id = r₀.parent_id ∧ r₀.ordering < r.ordering then
          { r with ordering := r.ordering + 1 }
        else if r.parent_id = q ∧ t ≤ r.ordering then
          { r with ordering := r.ordering + 1 }
        else r) := by
  simp only [crossBranchMove, updateOrderingAbove, updateOrderingFrom,
    setParentAndOrdering, List.map_map]
  refine List.map_congr_left (fun r _ => ?_)
  obtain ⟨ri, rp, ro, ou, og⟩ := r
  simp only [Function.comp]
  split_ifs <;> first
    | rfl
    | (exfalso; simp_all)

/-! ## Claim theorems -/

/-- C2: a cross-branch `move_to_position` that passes all validation
(`new_parent_id` explicitly given and distinct from the current parent,
existing non-cyclic new parent, `1 ≤ to_position ≤ new-parent child count
+ 1`) shifts every old-parent sibling with ordering strictly greater than
the moved resource's old ordering by +1, shifts every new-parent sibling
with ordering ≥ `to_position` by +1, and sets the moved resource's
`parent_id` to the new parent and its `ordering` to `to_position`. -/
theorem c2_cross_branch_contract {db : DB} {rid t j : Int} {r₀ npr : Resource}
    (h₀ : findResource db rid = some r₀)
    (hne : some j ≠ r₀.parent_id)
    (hnp : findResource db j = some npr)
    (hcyc : rid ∉ (path_upper db (some j) 1000000).map (fun r => r.resource_id))
    (h1 : 1 ≤ t) (h2 : t ≤ (childCount db (some j) : Int) + 1) :
    move_to_position db rid t (some (some j)) =
      .ok (db.map (fun r =>
        if r.resource_id = rid then { r with parent_id := some j, ordering := t }
        else if r.parent_id = r₀.parent_id ∧ r₀.ordering < r.ordering then
          { r with ordering := r.ordering + 1 }
        else if r.parent_id = some j ∧ t ≤ r.ordering then
          { r with ordering := r.ordering + 1 }
        else r)) := by
  rw [move_cross_eval h₀ hne hnp hcyc h1 h2,
    crossBranch_result_map db r₀ (some j) t hne,
    show r₀.resource_id = rid from findResource_id h₀]

/-- C2 witness: the spec's scenario — X under P1 (siblings 1..3, X at 2)
moved to P2 (2 children) at position 2. -/
theorem c2_cross_branch_contract_witness :
    findResource exDb7 4 = some ⟨4, some 1, 2, none, none⟩ ∧
    move_to_position exDb7 4 2 (some (some 2)) =
      .ok [⟨1, none, 1, none, none⟩, ⟨2, none, 2, none, none⟩,
           ⟨3, some 1, 1, none, none⟩, ⟨4, some 2, 2, none, none⟩,
           ⟨5, some 1, 4, none, none⟩, ⟨6, some 2, 1, none, none⟩,
           ⟨7, some 2, 3, none, none⟩] :=
  ⟨by decide,
    (@c2_cross_branch_contract exDb7 4 2 2 ⟨4, some 1, 2, none, none⟩
      ⟨2, none, 2, none, none⟩ (by decide) (by decide) (by decide) (by decide)
      (by decide) (by decide)).trans (by decide)⟩

/-- C3 counterexample: a same-branch call that passes the claim's stated
validation (no reparent, `to_position ≠ current ordering`,
`1 ≤ to_position ≤ sibling count`) but acts on a root-level resource: the
current parent row is `None`, so `parent.resource_id` raises
`AttributeError` instead of performing the described shifts. -/
theorem c3_same_branch_counterexample :
    (1 : Int) ≠ 2 ∧ (1 : Int) ≤ 1 ∧
    (1 : Int) ≤ (childCount exDbRoots none : Int) ∧
    move_to_position exDbRoots 2 1 none = .err .attributeError exDbRoots := by
  decide

/-- C3 (amended): provided additionally that the moved resource's current
parent exists as a row, a validated same-branch call shifts every sibling
whose ordering lies in the closed interval between the old ordering and
`to_position` (+1 when moving to an earlier position, −1 when moving to a
later one) and sets the moved resource's ordering to `to_position`. -/
theorem c3_same_branch_contract {db : DB} {rid t pv : Int} {r₀ par : Resource}
    (h₀ : findResource db rid = some r₀)
    (hp : r₀.parent_id = some pv)
    (hpar : findResource db pv = some par)
    (hne : t ≠ r₀.ordering)
    (h1 : 1 ≤ t) (h2 : t ≤ (childCount db r₀.parent_id : Int)) :
    move_to_position db rid t none =
      .ok (db.map (fun r =>
        if r.resource_id = rid then { r with ordering := t }
        else if r.parent_id = some pv ∧ min r₀.ordering t ≤ r.ordering ∧
            r.ordering ≤ max r₀.ordering t then
          { r with ordering := r.ordering + (if t < r₀.ordering then 1 else -1) }
        else r)) := by
  rw [move_same_eval h₀ hp hpar hne h1 h2, sameBranch_result_map, hp]

/-- C3 witness: the spec's scenario — siblings A(1), B(2), C(3) under P;
`move_to_position(C, 1)` gives A=2, B=3, C=1. -/
theorem c3_same_branch_contract_witness :
    findResource exDbABC 3 = some ⟨3, some 10, 3, none, none⟩ ∧
    move_to_position exDbABC 3 1 none =
      .ok [⟨10, none, 1, none, none⟩, ⟨1, some 10, 2, none, none⟩,
           ⟨2, some 10, 3, none, none⟩, ⟨3, some 10, 1, none, none⟩] :=
  ⟨by decide,
    (@c3_same_branch_contract exDbABC 3 1 10 ⟨3, some 10, 3, none, none⟩
      ⟨10, none, 1, none, none⟩ (by decide) (by decide) (by decide) (by decide)
      (by decide) (by decide)).trans (by decide)⟩

/-- C5: reparenting a resource onto itself or onto any of its descendants
(the new parent's ancestor chain reaches the moved resource) raises
`TreePathError`, whatever the requested position. -/
theorem c5_reparent_into_subtree_tree_path {db : DB} {rid t d : Int}
    {r₀ : Resource}
    (h₀ : findResource db rid = some r₀)
    (hchain : inParentChain db rid d 1000000 = true) :
    move_to_position db rid t (some (some d)) = .err .treePath db := by
  have hmem := inParentChain_path_upper hchain
  have hchk : checkNewParent db rid r₀ (some (some d)) = some .treePath := by
    simp only [checkNewParent]
    by_cases hq : some d = r₀.parent_id
    · rw [if_pos hq]
    · rw [if_neg hq]
      rw [show (1000000 : Nat) = 999999 + 1 from rfl] at hchain
      rw [inParentChain] at hchain
      cases hfind : findResource db d with
      | none => rw [hfind] at hchain; simp at hchain
      | some r =>
        rw [if_neg (show ¬ (lock_resource_for_update db (some d) = none ∧
              (some d : Option Int) ≠ none) by
            simp [lock_resource_for_update, hfind])]
        rw [if_pos hmem]
  simp only [move_to_position, lock_resource_for_update, h₀, hchk]

/-- C5 witness: moving a node onto its own child. -/
theorem c5_reparent_into_subtree_tree_path_witness :
    findResource exDbChild 1 = some ⟨1, none, 1, none, none⟩ ∧
    inParentChain exDbChild 1 2 1000000 = true ∧
    move_to_position exDbChild 1 1 (some (some 2)) =
      .err .treePath exDbChild :=
  ⟨by decide, by decide,
    @c5_reparent_into_subtree_tree_path exDbChild 1 1 2
      ⟨1, none, 1, none, none⟩ (by decide) (by decide)⟩

/-- C10: when no resource exists for `resource_id`, the lock query returns
`None` and `resource.parent_id` raises `AttributeError`; none of the four
domain error kinds is raised, and the state is untouched. -/
theorem c10_missing_resource_attribute_error {db : DB} {rid t : Int}
    {np : Option (Option Int)}
    (h : findResource db rid = none) :
    move_to_position db rid t np = .err .attributeError db ∧
      ∀ (e : MoveErr) (db' : DB),
        (e = .treeMissing ∨ e = .treePath ∨ e = .wrongPosition ∨
          e = .outOfBoundary) →
        move_to_position db rid t np ≠ .err e db' := by
  have hres : move_to_position db rid t np = .err .attributeError db := by
    simp only [move_to_position, lock_resource_for_update, h]
  refine ⟨hres, fun e db' hdom hcontra => ?_⟩
  rw [hres] at hcontra
  rcases hdom with rfl | rfl | rfl | rfl <;> simp at hcontra

/-- C4: whenever `move_to_position` raises one of the four domain errors,
it does so before any ordering-shift or `parent_id` update has been
issued: the table state carried by the error is the initial one. -/
theorem c4_domain_error_state_unchanged {db db' : DB} {rid t : Int}
    {np : Option (Option Int)} {e : MoveErr}
    (_hdom : e = .treeMissing ∨ e = .treePath ∨ e = .wrongPosition ∨
      e = .outOfBoundary)
    (herr : move_to_position db rid t np = .err e db') :
    db' = db := by
  unfold move_to_position sameBranchMove at herr
  repeat' split at herr
  all_goals simp_all

/-- C4 witness: a no-op reorder raises `WrongPositionError` with the state
unchanged. -/
theorem c4_domain_error_state_unchanged_witness :
    move_to_position exDbChild 2 1 none = .err .wrongPosition exDbChild ∧
    exDbChild = exDbChild :=
  ⟨by decide,
    @c4_domain_error_state_unchanged exDbChild exDbChild 2 1 none
      .wrongPosition (by decide) (by decide)⟩

/-- C6: given that the checks preceding the boundary validation pass,
`move_to_position` raises `OutOfBoundaryError` exactly when the position
is below 1, or exceeds the sibling count when no reparent is requested, or
exceeds the new parent's child count plus one when reparenting. -/
theorem c6_out_of_boundary_iff {db : DB} {rid t : Int}
    {np : Option (Option Int)} {r₀ : Resource}
    (h₀ : findResource db rid = some r₀)
    (hA : ∀ q, np = some q → q ≠ r₀.parent_id)
    (hB : ∀ i, np = some (some i) → ∃ pr, findResource db i = some pr)
    (hC : ∀ q, np = some q →
      rid ∉ (path_upper db q 1000000).map (fun r => r.resource_id))
    (hD : np = none → t ≠ r₀.ordering) :
    (∃ db', move_to_position db rid t np = .err .outOfBoundary db') ↔
      (t < 1 ∨ (np = none ∧ (childCount db r₀.parent_id : Int) < t) ∨
        (∃ q, np = some q ∧ (childCount db q : Int) + 1 < t)) := by
  have hchk : checkNewParent db rid r₀ np = none := by
    cases np with
    | none => rfl
    | some q =>
      simp only [checkNewParent]
      rw [if_neg (hA q rfl)]
      rw [if_neg (show ¬ (lock_resource_for_update db q = none ∧ q ≠ none) by
        cases q with
        | none => simp
        | some i =>
          obtain ⟨pr, hpr⟩ := hB i rfl
          simp [lock_resource_for_update, hpr])]
      rw [if_neg (hC q rfl)]
  simp only [move_to_position, lock_resource_for_update, h₀, hchk,
    effectiveParent]
  cases np with
  | none =>
    rw [if_neg (show ¬ (t = r₀.ordering ∧ (none : Option (Option Int)) = none)
      by simp [hD rfl])]
    by_cases hlt : t < 1
    · simp only [if_pos hlt]
      constructor
      · intro _
        exact Or.inl hlt
      · intro _
        exact ⟨db, rfl⟩
    · rw [if_neg hlt]
      by_cases hbnd : ((childCount db r₀.parent_id : Int) < t ∧
          (none : Option (Option Int)) = none) ∨
          (childCount db r₀.parent_id : Int) + 1 < t
      · rw [if_pos hbnd]
        constructor
        · intro _
          refine Or.inr (Or.inl ⟨rfl, ?_⟩)
          rcases hbnd with ⟨hb, _⟩ | hb
          · exact hb
          · omega
        · intro _
          exact ⟨db, rfl⟩
      · rw [if_neg hbnd]
        constructor
        · intro ⟨db', hdb'⟩
          exfalso
          simp only [sameBranchMove] at hdb'
          cases hpa : r₀.parent_id with
          | none => simp only [hpa] at hdb'; simp at hdb'
          | some pv =>
            simp only [hpa] at hdb'
            cases hf : findResource db pv with
            | none => rw [hf] at hdb'; simp at hdb'
            | some par =>
              rw [hf] at hdb'
              by_cases hmv : t < r₀.ordering <;> simp [hmv] at hdb'
        · intro hcond
          exfalso
          rcases hcond with h | ⟨_, h⟩ | ⟨q, hq, _⟩
          · exact hlt h
          · exact hbnd (Or.inl ⟨h, rfl⟩)
          · exact Option.noConfusion hq
  | some q =>
    rw [if_neg (show ¬ (t = r₀.ordering ∧
        (some q : Option (Option Int)) = none) by simp)]
    by_cases hlt : t < 1
    · simp only [if_pos hlt]
      constructor
      · intro _
        exact Or.inl hlt
      · intro _
        exact ⟨db, rfl⟩
    · rw [if_neg hlt]
      by_cases hbnd : ((childCount db q : Int) < t ∧
          (some q : Option (Option Int)) = none) ∨
          (childCount db q : Int) + 1 < t
      · rw [if_pos hbnd]
        constructor
        · intro _
          refine Or.inr (Or.inr ⟨q, rfl, ?_⟩)
          rcases hbnd with ⟨_, hb⟩ | hb
          · exact Option.noConfusion hb
          · exact hb
        · intro _
          exact ⟨db, rfl⟩
      · rw [if_neg hbnd]
        constructor
        · intro ⟨db', hdb'⟩
          exact MoveResult.noConfusion hdb'
        · intro hcond
          exfalso
          rcases hcond with h | ⟨hnone, _⟩ | ⟨q', hq', h⟩
          · exact hlt h
          · exact Option.noConfusion hnone
          · cases hq'
            exact hbnd (Or.inr h)

/-- C6 witness: position 0 is always out of bounds; position N+1 within
the same branch is as well. -/
theorem c6_out_of_boundary_iff_witness :
    findResource exDbABC 3 = some ⟨3, some 10, 3, none, none⟩ ∧
    ((∃ db', move_to_position exDbABC 3 0 none = .err .outOfBoundary db') ↔
      ((0 : Int) < 1 ∨
        ((none : Option (Option Int)) = none ∧
          (childCount exDbABC (some 10) : Int) < 0) ∨
        (∃ q, (none : Option (Option Int)) = some q ∧
          (childCount exDbABC q : Int) + 1 < 0))) :=
  ⟨by decide,
    @c6_out_of_boundary_iff exDbABC 3 0 none ⟨3, some 10, 3, none, none⟩
      (by decide) (fun q hq => Option.noConfusion hq)
      (fun i hi => Option.noConfusion hi)
      (fun q hq => Option.noConfusion hq) (fun _ => by decide)⟩
/-- C10 witness: an empty table. -/
theorem c10_missing_resource_attribute_error_witness :
    findResource ([] : DB) 1 = none ∧
    move_to_position ([] : DB) 1 1 none = .err .attributeError [] :=
  ⟨by decide, (c10_missing_resource_attribute_error (by decide)).1⟩

/-- C9: `build_subtree_strut` returns the sentinel `{node: None,
children: {}}` on an empty row sequence; on a single row whose path is
just its own `resource_id` it returns the sentinel root with exactly that
node as child, itself with no children. -/
theorem c9_build_subtree_strut_base_cases :
    build_subtree_strut [] = some (.mk none []) ∧
    (∀ row : SubtreeRow, row.path = [row.resource.resource_id] →
      build_subtree_strut [row] =
        some (.mk none
          [(row.resource.resource_id, .mk (some row.resource) [])])) := by
  refine ⟨rfl, fun row hpath => ?_⟩
  simp [build_subtree_strut, buildLoop, hpath, insertAtPath, odSet]

/-- C9 witness: a single node with id 5. -/
theorem c9_build_subtree_strut_base_cases_witness :
    (⟨⟨5, none, 1, none, none⟩, [5]⟩ : SubtreeRow).path = [5] ∧
    build_subtree_strut [⟨⟨5, none, 1, none, none⟩, [5]⟩] =
      some (.mk none [(5, .mk (some ⟨5, none, 1, none, none⟩) [])]) :=
  ⟨rfl, c9_build_subtree_strut_base_cases.2 ⟨⟨5, none, 1, none, none⟩, [5]⟩ rfl⟩

/-! ## Permission lemmas -/

theorem user_eq_of_id {u v : User} (h : u.id = v.id) : u = v := by
  cases u; cases v; cases h; rfl

theorem group_eq_of_id {g h : Group} (e : g.id = h.id) : g = h := by
  cases g; cases h; cases e; rfl

theorem groupsDictGet_eq_of_mem {gs : List Group} {g : Group} {gid : Int}
    (hmem : g ∈ gs) (hid : g.id = gid) : groupsDictGet gs gid = some g := by
  unfold groupsDictGet
  cases hfind : gs.find? (fun x => x.id == gid) with
  | none =>
    exfalso
    have := List.find?_eq_none.mp hfind g hmem
    simp [hid] at this
  | some g' =>
    have hx : g'.id = gid := by
      have := List.find?_some hfind
      simpa using this
    exact congrArg some (group_eq_of_id (hx.trans hid.symm))

theorem mem_perms_for_user_of_userOwner {pdb : PermDB} {res : Resource}
    {user : User} {pt : PermissionTuple}
    (h : pt ∈ perms_for_user_userOwner pdb res user) :
    pt ∈ perms_for_user pdb res user :=
  List.mem_append_left _ h

theorem mem_perms_for_user_of_base {pdb : PermDB} {res : Resource}
    {user : User} {pt : PermissionTuple}
    (h : pt ∈ perms_for_user_base pdb res user) :
    pt ∈ perms_for_user pdb res user := by
  refine mem_perms_for_user_of_userOwner ?_
  unfold perms_for_user_userOwner
  by_cases hcase : res.owner_user_id = some user.id <;>
    simp [hcase, List.mem_append, h]

theorem owner_user_tuple_mem_perms_for_user {pdb : PermDB} {res : Resource}
    {user : User} (h : res.owner_user_id = some user.id) :
    (⟨some user, .allPermissions, "user", none, res, true, true⟩ :
        PermissionTuple) ∈ perms_for_user pdb res user := by
  refine mem_perms_for_user_of_userOwner ?_
  unfold perms_for_user_userOwner
  rw [if_pos h]
  exact List.mem_append_right _ (List.mem_singleton.mpr rfl)

theorem owner_group_tuple_mem_perms_for_user {pdb : PermDB} {res : Resource}
    {user : User} {ogid : Int} {g : Group}
    (h : res.owner_group_id = some ogid)
    (hg : groupsDictGet (userGroups pdb user) ogid = some g) :
    (⟨some user, .allPermissions, "group", some g, res, true, true⟩ :
        PermissionTuple) ∈ perms_for_user pdb res user := by
  refine List.mem_append_right _ ?_
  simp only [perms_for_user_groupOwner, h, hg]
  exact List.mem_singleton.mpr rfl

/-- With `skip_group_perms = True` the query of
`resource_permissions_for_users` only produces user-type tuples. -/
theorem rpfu_skip_group_type_user {pdb : PermDB} {perms : PermFilter}
    {resource_ids : List Int} {user_ids group_ids : Option (List Int)}
    {lgp : Bool} {res : Resource} {pt : PermissionTuple}
    (hpt : pt ∈ resource_permissions_for_users pdb perms resource_ids
      user_ids group_ids lgp true false res) : pt.type = "user" := by
  unfold resource_permissions_for_users at hpt
  simp only [if_true, List.nil_append, Bool.false_eq_true, if_false,
    List.mem_flatMap, List.mem_filter] at hpt
  obtain ⟨up, _, hup⟩ := hpt
  cases hfind : pdb.users.find? (fun u => u.id == up.user_id) with
  | none => rw [hfind] at hup; simp at hup
  | some u =>
    rw [hfind] at hup
    simp only [List.mem_singleton] at hup
    rw [hup]

/-- C8: `users_for_perm` with `skip_group_perms=True` never returns a
PermissionTuple of type `"group"`: group-grant rows are suppressed in the
query and the owner-group expansion is skipped; only user-type tuples
remain. -/
theorem c8_skip_group_perms_no_group_tuples (pdb : PermDB) (res : Resource)
    (perm_name : String) (user_ids group_ids : Option (List Int))
    (lgp : Bool) :
    ∀ pt ∈ users_for_perm pdb res perm_name user_ids group_ids lgp true,
      pt.type ≠ "group" := by
  intro pt hpt
  unfold users_for_perm at hpt
  simp only [Bool.not_true, Bool.and_false, Bool.false_eq_true, if_false] at hpt
  have htype : pt.type = "user" := by
    by_cases howner : truthyOpt res.owner_user_id = true
    · rw [if_pos howner] at hpt
      rcases List.mem_append.mp hpt with hq | hsingle
      · exact rpfu_skip_group_type_user hq
      · rw [List.mem_singleton.mp hsingle]
    · rw [if_neg howner] at hpt
      exact rpfu_skip_group_type_user hpt
  rw [htype]
  decide

/-- C8 witness: one direct grant row; the call returns a single user-type
tuple. -/
theorem c8_skip_group_perms_no_group_tuples_witness :
    (⟨some ⟨1⟩, .name "read", "user", none, ⟨9, none, 1, none, none⟩,
        false, true⟩ : PermissionTuple) ∈
      users_for_perm
        ⟨[⟨1⟩], [], [], [⟨1, 9, "read"⟩], []⟩
        ⟨9, none, 1, none, none⟩ "read" none none false true ∧
    (⟨some ⟨1⟩, .name "read", "user", none, ⟨9, none, 1, none, none⟩,
        false, true⟩ : PermissionTuple).type ≠ "group" :=
  ⟨by decide,
    c8_skip_group_perms_no_group_tuples
      ⟨[⟨1⟩], [], [], [⟨1, 9, "read"⟩], []⟩
      ⟨9, none, 1, none, none⟩ "read" none none false _ (by decide)⟩

/-- A group-typed tuple produced by the modelled
`resource_permissions_for_users` call of `group_perms_for_user` also
appears in the union-query part of `perms_for_user`. -/
theorem mem_base_of_group_tuple {pdb : PermDB} {res : Resource} {user : User}
    {pt : PermissionTuple}
    (hq : pt ∈ resource_permissions_for_users pdb .anyPerm [res.resource_id]
      (some [user.id]) none false false false res)
    (htype : pt.type = "group") :
    pt ∈ perms_for_user_base pdb res user := by
  unfold resource_permissions_for_users at hq
  simp only [Bool.false_eq_true, if_false, List.mem_append, List.mem_flatMap,
    List.mem_filter] at hq
  rcases hq with ⟨gp, ⟨hgpmem, hgpcond⟩, hin⟩ | ⟨up, _, hin⟩
  · cases hgd : groupsDictGet pdb.groups gp.group_id with
    | none => rw [hgd] at hin; simp at hin
    | some g =>
      rw [hgd] at hin
      simp only [Bool.false_eq_true, if_false, List.mem_map,
        List.mem_filter] at hin
      obtain ⟨u, ⟨hu, huid⟩, hpt⟩ := hin
      have huser : u = user := by
        refine user_eq_of_id ?_
        simpa using huid
      subst huser
      subst hpt
      have hgmem : g ∈ pdb.groups := List.mem_of_find?_eq_some hgd
      have hgid : g.id = gp.group_id := by
        have := List.find?_some hgd
        simpa using this
      have hcontains : pdb.memberships.contains (u.id, g.id) = true := by
        have := (List.mem_filter.mp hu).2
        simpa using this
      have hgUser : g ∈ userGroups pdb u := by
        refine List.mem_filter.mpr ⟨hgmem, ?_⟩
        simpa using hcontains
      have hres : gp.resource_id = res.resource_id := by
        simp only [Bool.and_eq_true] at hgpcond
        have := hgpcond.1.1
        simpa using this
      have hrow : (⟨gp.group_id, gp.perm_name, "group"⟩ : PermRow) ∈
          perms_for_user_q1 pdb res u := by
        refine List.mem_map.mpr ⟨gp, List.mem_filter.mpr ⟨hgpmem, ?_⟩, rfl⟩
        simp only [Bool.and_eq_true, beq_iff_eq]
        refine ⟨?_, hres⟩
        have : gp.group_id ∈ (userGroups pdb u).map (fun g => g.id) :=
          List.mem_map.mpr ⟨g, hgUser, hgid⟩
        simpa [List.elem_iff] using this
      refine List.mem_map.mpr ⟨⟨gp.group_id, gp.perm_name, "group"⟩, ?_, ?_⟩
      · exact List.mem_dedup.mpr (List.mem_append_left _ hrow)
      · simp [groupsDictGet_eq_of_mem hgUser hgid]
  · exfalso
    cases hfind : pdb.users.find? (fun u => u.id == up.user_id) with
    | none => rw [hfind] at hin; simp at hin
    | some u =>
      rw [hfind] at hin
      simp only [List.mem_singleton] at hin
      rw [hin] at htype
      simp at htype

/-- C7: `perms_for_user` contains every tuple of `direct_perms_for_user`
and of `group_perms_for_user`, and when the user owns the resource it
contains an ALL_PERMISSIONS tuple of type `"user"` flagged as an owner
grant. -/
theorem c7_perms_superset_and_owner (pdb : PermDB) (res : Resource)
    (user : User) :
    (∀ pt, pt ∈ direct_perms_for_user pdb res user ∨
        pt ∈ group_perms_for_user pdb res user →
      pt ∈ perms_for_user pdb res user) ∧
    (res.owner_user_id = some user.id →
      ∃ pt ∈ perms_for_user pdb res user,
        pt.perm_name = PermValue.allPermissions ∧ pt.type = "user" ∧
          pt.owner = true) := by
  constructor
  · intro pt hpt
    rcases hpt with hdir | hgrp
    · unfold direct_perms_for_user at hdir
      have hmain : ∀ x ∈ (pdb.userResourcePermissions.filter (fun up =>
            up.user_id == user.id && up.resource_id == res.resource_id)).map
          (fun up => (⟨some user, .name up.perm_name, "user", none, res,
            false, true⟩ : PermissionTuple)),
          x ∈ perms_for_user pdb res user := by
        intro x hx
        obtain ⟨up, hup, hxeq⟩ := List.mem_map.mp hx
        refine mem_perms_for_user_of_base ?_
        refine List.mem_map.mpr ⟨⟨up.user_id, up.perm_name, "user"⟩, ?_, ?_⟩
        · refine List.mem_dedup.mpr (List.mem_append_right _ ?_)
          exact List.mem_map.mpr ⟨up, hup, rfl⟩
        · rw [← hxeq]
          simp
      by_cases howner : res.owner_user_id = some user.id
      · rw [if_pos howner] at hdir
        rcases List.mem_append.mp hdir with hx | hsingle
        · exact hmain pt hx
        · rw [List.mem_singleton.mp hsingle]
          exact owner_user_tuple_mem_perms_for_user howner
      · rw [if_neg howner] at hdir
        exact hmain pt hdir
    · unfold group_perms_for_user at hgrp
      rcases List.mem_append.mp hgrp with hfil | hown
      · obtain ⟨hq, htype⟩ := List.mem_filter.mp hfil
        exact mem_perms_for_user_of_base
          (mem_base_of_group_tuple hq (by simpa using htype))
      · exact List.mem_append_right _ hown
  · intro howner
    exact ⟨⟨some user, .allPermissions, "user", none, res, true, true⟩,
      owner_user_tuple_mem_perms_for_user howner, rfl, rfl, rfl⟩

/-- C7 witness: one user in one group, one direct grant, resource owned by
the user. -/
theorem c7_perms_superset_and_owner_witness :
    ((⟨some ⟨1⟩, .name "read", "user", none, ⟨9, none, 1, some 1, some 2⟩,
        false, true⟩ : PermissionTuple) ∈
      direct_perms_for_user ⟨[⟨1⟩], [⟨2⟩], [(1, 2)], [⟨1, 9, "read"⟩],
        [⟨2, 9, "write"⟩]⟩ ⟨9, none, 1, some 1, some 2⟩ ⟨1⟩) ∧
    ((⟨some ⟨1⟩, .name "read", "user", none, ⟨9, none, 1, some 1, some 2⟩,
        false, true⟩ : PermissionTuple) ∈
      perms_for_user ⟨[⟨1⟩], [⟨2⟩], [(1, 2)], [⟨1, 9, "read"⟩],
        [⟨2, 9, "write"⟩]⟩ ⟨9, none, 1, some 1, some 2⟩ ⟨1⟩) ∧
    (∃ pt ∈ perms_for_user ⟨[⟨1⟩], [⟨2⟩], [(1, 2)], [⟨1, 9, "read"⟩],
        [⟨2, 9, "write"⟩]⟩ ⟨9, none, 1, some 1, some 2⟩ ⟨1⟩,
      pt.perm_name = PermValue.allPermissions ∧ pt.type = "user" ∧
        pt.owner = true) :=
  ⟨by decide,
    (c7_perms_superset_and_owner ⟨[⟨1⟩], [⟨2⟩], [(1, 2)], [⟨1, 9, "read"⟩],
        [⟨2, 9, "write"⟩]⟩ ⟨9, none, 1, some 1, some 2⟩ ⟨1⟩).1 _
      (Or.inl (by decide)),
    (c7_perms_superset_and_owner ⟨[⟨1⟩], [⟨2⟩], [(1, 2)], [⟨1, 9, "read"⟩],
        [⟨2, 9, "write"⟩]⟩ ⟨9, none, 1, some 1, some 2⟩ ⟨1⟩).2 (by decide)⟩

/-! ## Counting lemmas for the contiguity invariant -/

theorem countP_split_id {α : Type} (l : List α) (q X : α → Bool) :
    l.countP X =
      l.countP (fun a => q a && X a) + l.countP (fun a => !q a && X a) := by
  induction l with
  | nil => simp
  | cons a l ih =>
    simp only [List.countP_cons, ih]
    cases hq : q a <;> cases hx : X a <;> simp [hq, hx] <;> omega

/-- Variant of `countP_unique_id` with a `decide`d equality test. -/
theorem countP_unique_id' {db : DB} {rid : Int} {r₀ : Resource}
    (hids : (db.map (fun r => r.resource_id)).Nodup)
    (hmem : r₀ ∈ db) (hid : r₀.resource_id = rid) (Q : Resource → Bool) :
    db.countP (fun r => decide (r.resource_id = rid) && Q r) =
      if Q r₀ then 1 else 0 := by
  rw [← countP_unique_id hids hmem hid Q]
  refine countP_congr' (fun r _ => ?_)
  by_cases h : r.resource_id = rid <;> simp [h]

/-- Counting after a two-way branched rewrite of every row. -/
theorem countP_if_branches {α : Type} (l : List α) (c₁ c₂ : α → Prop)
    [DecidablePred c₁] [DecidablePred c₂] (A B : α → α) (P : α → Bool) :
    l.countP (fun r => P (if c₁ r then A r else if c₂ r then B r else r)) =
      l.countP (fun r => decide (c₁ r) && P (A r)) +
        (l.countP (fun r => !decide (c₁ r) && (decide (c₂ r) && P (B r))) +
          l.countP (fun r => !decide (c₁ r) && (!decide (c₂ r) && P r))) := by
  induction l with
  | nil => simp
  | cons a l ih =>
    simp only [List.countP_cons, ih]
    by_cases h1 : c₁ a
    · simp [h1]
      omega
    · by_cases h2 : c₂ a <;> simp [h1, h2] <;> omega

/-- Counting after a three-way branched rewrite of every row. -/
theorem countP_if_branches3 {α : Type} (l : List α) (c₁ c₂ c₃ : α → Prop)
    [DecidablePred c₁] [DecidablePred c₂] [DecidablePred c₃]
    (A B C : α → α) (P : α → Bool) :
    l.countP (fun r =>
        P (if c₁ r then A r else if c₂ r then B r else if c₃ r then C r
          else r)) =
      l.countP (fun r => decide (c₁ r) && P (A r)) +
        (l.countP (fun r => !decide (c₁ r) && (decide (c₂ r) && P (B r))) +
          (l.countP (fun r =>
              !decide (c₁ r) && (!decide (c₂ r) &&
                (decide (c₃ r) && P (C r)))) +
            l.countP (fun r =>
              !decide (c₁ r) && (!decide (c₂ r) &&
                (!decide (c₃ r) && P r))))) := by
  induction l with
  | nil => simp
  | cons a l ih =>
    simp only [List.countP_cons, ih]
    by_cases h1 : c₁ a
    · simp [h1]
      omega
    · by_cases h2 : c₂ a
      · simp [h1, h2]
        omega
      · by_cases h3 : c₃ a <;> simp [h1, h2, h3] <;> omega

/-- Counting rows other than the (unique) moved one. -/
theorem countP_not_id {db : DB} {rid : Int} {r₀ : Resource}
    (hids : (db.map (fun r => r.resource_id)).Nodup)
    (hmem : r₀ ∈ db) (hid : r₀.resource_id = rid) (X : Resource → Bool) :
    db.countP (fun r => !decide (r.resource_id = rid) && X r) =
        db.countP X - (if X r₀ then 1 else 0) ∧
      (if X r₀ then 1 else 0) ≤ db.countP X := by
  have hsplit := countP_split_id db (fun r => decide (r.resource_id = rid)) X
  have huniq := countP_unique_id' hids hmem hid X
  constructor <;> omega

/-- Same-branch reorder preserves the contiguity invariant of the (only)
affected parent. -/
theorem contiguous_same_branch {db : DB} {rid t pv lo hi δ : Int}
    {r₀ : Resource}
    (hids : (db.map (fun r => r.resource_id)).Nodup)
    (h₀ : findResource db rid = some r₀)
    (hpv : r₀.parent_id = some pv)
    (h1 : 1 ≤ t) (h2 : t ≤ (childCount db (some pv) : Int))
    (hcase : (t < r₀.ordering ∧ δ = 1 ∧ lo = t ∧ hi = r₀.ordering) ∨
      (r₀.ordering < t ∧ δ = -1 ∧ lo = r₀.ordering ∧ hi = t))
    (hcont : Contiguous db (some pv)) :
    Contiguous (db.map (fun r =>
      if r.resource_id = rid then { r with ordering := t }
      else if r.parent_id = some pv ∧ lo ≤ r.ordering ∧ r.ordering ≤ hi then
        { r with ordering := r.ordering + δ }
      else r)) (some pv) := by
  have hmem : r₀ ∈ db := findResource_mem h₀
  have hid : r₀.resource_id = rid := findResource_id h₀
  have hlo₀ : lo ≤ r₀.ordering := by rcases hcase with ⟨h, _, hl, hh⟩ | ⟨h, _, hl, hh⟩ <;> omega
  have hhi₀ : r₀.ordering ≤ hi := by rcases hcase with ⟨h, _, hl, hh⟩ | ⟨h, _, hl, hh⟩ <;> omega
  have hcc : childCount (db.map (fun r =>
      if r.resource_id = rid then { r with ordering := t }
      else if r.parent_id = some pv ∧ lo ≤ r.ordering ∧ r.ordering ≤ hi then
        { r with ordering := r.ordering + δ }
      else r)) (some pv) = childCount db (some pv) := by
    unfold childCount
    rw [List.countP_map]
    refine countP_congr' (fun r _ => ?_)
    simp only [Function.comp]
    split_ifs <;> rfl
  have hobound : 1 ≤ r₀.ordering ∧
      r₀.ordering ≤ (childCount db (some pv) : Int) := by
    have hpos : 0 < childCountOrd db (some pv) r₀.ordering := by
      refine List.countP_pos_iff.mpr ⟨r₀, hmem, ?_⟩
      simp [hpv]
    have hco := hcont r₀.ordering
    by_cases hb : 1 ≤ r₀.ordering ∧
        r₀.ordering ≤ (childCount db (some pv) : Int)
    · exact hb
    · rw [hco, if_neg hb] at hpos
      exact absurd hpos (by omega)
  intro k
  rw [hcc]
  unfold childCountOrd
  rw [List.countP_map]
  simp only [Function.comp_def]
  have hsplit := countP_if_branches db
    (fun r => r.resource_id = rid)
    (fun r => r.parent_id = some pv ∧ lo ≤ r.ordering ∧ r.ordering ≤ hi)
    (fun r => { r with ordering := t })
    (fun r => { r with ordering := r.ordering + δ })
    (fun s => s.parent_id == some pv && s.ordering == k)
  rw [hsplit]
  have hT1 : db.countP (fun r => decide (r.resource_id = rid) &&
      (({ r with ordering := t } : Resource).parent_id == some pv &&
        ({ r with ordering := t } : Resource).ordering == k)) =
      if t = k then 1 else 0 := by
    rw [countP_unique_id' hids hmem hid]
    simp [hpv]
  obtain ⟨hT2eq, hT2le⟩ := countP_not_id hids hmem hid
    (fun r => decide (r.parent_id = some pv ∧ lo ≤ r.ordering ∧
        r.ordering ≤ hi) &&
      (({ r with ordering := r.ordering + δ } : Resource).parent_id ==
          some pv &&
        ({ r with ordering := r.ordering + δ } : Resource).ordering == k))
  obtain ⟨hT3eq, hT3le⟩ := countP_not_id hids hmem hid
    (fun r => !decide (r.parent_id = some pv ∧ lo ≤ r.ordering ∧
        r.ordering ≤ hi) &&
      (r.parent_id == some pv && r.ordering == k))
  have hX : db.countP (fun r => decide (r.parent_id = some pv ∧
        lo ≤ r.ordering ∧ r.ordering ≤ hi) &&
      (({ r with ordering := r.ordering + δ } : Resource).parent_id ==
          some pv &&
        ({ r with ordering := r.ordering + δ } : Resource).ordering == k)) =
      if lo ≤ k - δ ∧ k - δ ≤ hi then childCountOrd db (some pv) (k - δ)
      else 0 := by
    by_cases hk : lo ≤ k - δ ∧ k - δ ≤ hi
    · rw [if_pos hk]
      unfold childCountOrd
      refine countP_congr' (fun r _ => ?_)
      by_cases hpar : r.parent_id = some pv
      · by_cases hord : r.ordering = k - δ
        · have hsum : r.ordering + δ = k := by omega
          simp [hpar, hord, hsum, hk.1, hk.2]
        · have hb1 : (r.ordering + δ == k) = false := by
            simp only [beq_eq_false_iff_ne, ne_eq]
            omega
          have hb2 : (r.ordering == k - δ) = false := by
            simp only [beq_eq_false_iff_ne, ne_eq]
            omega
          simp [hpar, hb1, hb2]
      · simp [hpar]
    · rw [if_neg hk]
      refine countP_eq_zero_of_not (fun r _ => ?_)
      intro hcontra
      simp only [Bool.and_eq_true, decide_eq_true_eq, beq_iff_eq] at hcontra
      obtain ⟨⟨_, hlo', hhi'⟩, _, hordk⟩ := hcontra
      exact hk ⟨by omega, by omega⟩
  have hXr₀ : (if (decide (r₀.parent_id = some pv ∧ lo ≤ r₀.ordering ∧
        r₀.ordering ≤ hi) &&
      (({ r₀ with ordering := r₀.ordering + δ } : Resource).parent_id ==
          some pv &&
        ({ r₀ with ordering := r₀.ordering + δ } : Resource).ordering == k)) =
        true then 1 else 0 : ℕ) =
      if r₀.ordering + δ = k then 1 else 0 := by
    simp [hpv, hlo₀, hhi₀]
  have hY : db.countP (fun r => !decide (r.parent_id = some pv ∧
        lo ≤ r.ordering ∧ r.ordering ≤ hi) &&
      (r.parent_id == some pv && r.ordering == k)) =
      if lo ≤ k ∧ k ≤ hi then 0 else childCountOrd db (some pv) k := by
    by_cases hk2 : lo ≤ k ∧ k ≤ hi
    · rw [if_pos hk2]
      refine countP_eq_zero_of_not (fun r _ => ?_)
      intro hcontra
      simp only [Bool.and_eq_true, Bool.not_eq_true', decide_eq_false_iff_not,
        beq_iff_eq] at hcontra
      obtain ⟨hnc, hpar, hordk⟩ := hcontra
      exact hnc ⟨hpar, by omega, by omega⟩
    · rw [if_neg hk2]
      unfold childCountOrd
      refine countP_congr' (fun r _ => ?_)
      by_cases hpar : r.parent_id = some pv
      · by_cases hord : r.ordering = k
        · have hnc : ¬ (r.parent_id = some pv ∧ lo ≤ r.ordering ∧
              r.ordering ≤ hi) := by
            intro hc
            exact hk2 ⟨by omega, by omega⟩
          simp [hpar, hord, hnc]
          omega
        · simp [hpar, hord]
      · simp [hpar]
  have hYr₀ : (if (!decide (r₀.parent_id = some pv ∧ lo ≤ r₀.ordering ∧
        r₀.ordering ≤ hi) &&
      (r₀.parent_id == some pv && r₀.ordering == k)) = true
        then 1 else 0 : ℕ) = 0 := by
    simp [hpv, hlo₀, hhi₀]
  rw [hT1, hT2eq, hT3eq]
  rw [hX, hXr₀, hY, hYr₀]
  have hck := hcont k
  have hck' := hcont (k - δ)
  rw [hck, hck']
  split_ifs <;> omega

/-- Cross-branch reparent gives the new parent a contiguous `1..N+1`
ordering (its old children shifted to make room, the moved row inserted at
`t`). -/
theorem contiguous_cross_branch {db : DB} {rid t : Int} {q : Option Int}
    {r₀ : Resource}
    (hids : (db.map (fun r => r.resource_id)).Nodup)
    (h₀ : findResource db rid = some r₀)
    (hne : q ≠ r₀.parent_id)
    (h1 : 1 ≤ t) (h2 : t ≤ (childCount db q : Int) + 1)
    (hcont : Contiguous db q) :
    Contiguous (db.map (fun r =>
      if r.resource_id = rid then { r with parent_id := q, ordering := t }
      else if r.parent_id = r₀.parent_id ∧ r₀.ordering < r.ordering then
        { r with ordering := r.ordering + 1 }
      else if r.parent_id = q ∧ t ≤ r.ordering then
        { r with ordering := r.ordering + 1 }
      else r)) q := by
  have hmem : r₀ ∈ db := findResource_mem h₀
  have hid : r₀.resource_id = rid := findResource_id h₀
  have hqne : r₀.parent_id ≠ q := fun hc => hne hc.symm
  have hcc : childCount (db.map (fun r =>
      if r.resource_id = rid then { r with parent_id := q, ordering := t }
      else if r.parent_id = r₀.parent_id ∧ r₀.ordering < r.ordering then
        { r with ordering := r.ordering + 1 }
      else if r.parent_id = q ∧ t ≤ r.ordering then
        { r with ordering := r.ordering + 1 }
      else r)) q = childCount db q + 1 := by
    unfold childCount
    rw [List.countP_map]
    simp only [Function.comp_def]
    have hpw : db.countP (fun r =>
        (if r.resource_id = rid then { r with parent_id := q, ordering := t }
          else if r.parent_id = r₀.parent_id ∧ r₀.ordering < r.ordering then
            { r with ordering := r.ordering + 1 }
          else if r.parent_id = q ∧ t ≤ r.ordering then
            { r with ordering := r.ordering + 1 }
          else r).parent_id == q) =
        db.countP (fun r =>
          decide (r.resource_id = rid) || r.parent_id == q) := by
      refine countP_congr' (fun r _ => ?_)
      by_cases hidr : r.resource_id = rid
      · simp [hidr]
      · have hd : decide (r.resource_id = rid) = false := decide_eq_false hidr
        rw [hd]
        simp only [Bool.false_or]
        rw [if_neg hidr]
        split_ifs <;> rfl
    rw [hpw]
    have hsplit := countP_split_id db
      (fun r => decide (r.resource_id = rid))
      (fun r => decide (r.resource_id = rid) || r.parent_id == q)
    have hfirst : db.countP (fun r => decide (r.resource_id = rid) &&
        (decide (r.resource_id = rid) || r.parent_id == q)) = 1 := by
      rw [countP_unique_id' hids hmem hid]
      simp [hid]
    have hcong : db.countP (fun r => !decide (r.resource_id = rid) &&
        (decide (r.resource_id = rid) || r.parent_id == q)) =
        db.countP (fun r => !decide (r.resource_id = rid) &&
          r.parent_id == q) := by
      refine countP_congr' (fun r _ => ?_)
      cases hd : decide (r.resource_id = rid) <;> simp [hd]
    obtain ⟨hnp, _⟩ := countP_not_id hids hmem hid (fun r => r.parent_id == q)
    have hz : (if (r₀.parent_id == q) = true then 1 else 0 : ℕ) = 0 := by
      simp [hqne]
    omega
  intro k
  rw [hcc]
  unfold childCountOrd
  rw [List.countP_map]
  simp only [Function.comp_def]
  have hsplit := countP_if_branches3 db
    (fun r => r.resource_id = rid)
    (fun r => r.parent_id = r₀.parent_id ∧ r₀.ordering < r.ordering)
    (fun r => r.parent_id = q ∧ t ≤ r.ordering)
    (fun r => { r with parent_id := q, ordering := t })
    (fun r => { r with ordering := r.ordering + 1 })
    (fun r => { r with ordering := r.ordering + 1 })
    (fun s => s.parent_id == q && s.ordering == k)
  rw [hsplit]
  have hT1 : db.countP (fun r => decide (r.resource_id = rid) &&
      (({ r with parent_id := q, ordering := t } : Resource).parent_id == q &&
        ({ r with parent_id := q, ordering := t } : Resource).ordering == k)) =
      if t = k then 1 else 0 := by
    rw [countP_unique_id' hids hmem hid]
    simp
  have hT2 : db.countP (fun r => !decide (r.resource_id = rid) &&
      (decide (r.parent_id = r₀.parent_id ∧ r₀.ordering < r.ordering) &&
        (({ r with ordering := r.ordering + 1 } : Resource).parent_id == q &&
          ({ r with ordering := r.ordering + 1 } : Resource).ordering ==
            k))) = 0 := by
    refine countP_eq_zero_of_not (fun r _ => ?_)
    intro hcontra
    simp only [Bool.and_eq_true, decide_eq_true_eq, beq_iff_eq] at hcontra
    obtain ⟨_, ⟨hpar, _⟩, hq, _⟩ := hcontra
    exact hne ((hpar ▸ hq : r₀.parent_id = q).symm)
  obtain ⟨hT3eq, _⟩ := countP_not_id hids hmem hid
    (fun r => !decide (r.parent_id = r₀.parent_id ∧ r₀.ordering < r.ordering)
      && (decide (r.parent_id = q ∧ t ≤ r.ordering) &&
        (({ r with ordering := r.ordering + 1 } : Resource).parent_id == q &&
          ({ r with ordering := r.ordering + 1 } : Resource).ordering == k)))
  obtain ⟨hT4eq, _⟩ := countP_not_id hids hmem hid
    (fun r => !decide (r.parent_id = r₀.parent_id ∧ r₀.ordering < r.ordering)
      && (!decide (r.parent_id = q ∧ t ≤ r.ordering) &&
        (r.parent_id == q && r.ordering == k)))
  have hX₃ : db.countP
      (fun r => !decide (r.parent_id = r₀.parent_id ∧
          r₀.ordering < r.ordering)
        && (decide (r.parent_id = q ∧ t ≤ r.ordering) &&
          (({ r with ordering := r.ordering + 1 } : Resource).parent_id == q
            &&
            ({ r with ordering := r.ordering + 1 } : Resource).ordering ==
              k))) =
      if t ≤ k - 1 then childCountOrd db q (k - 1) else 0 := by
    by_cases hk : t ≤ k - 1
    · rw [if_pos hk]
      unfold childCountOrd
      refine countP_congr' (fun r _ => ?_)
      by_cases hpar : r.parent_id = q
      · have hnc₂ : ¬ (r.parent_id = r₀.parent_id ∧
            r₀.ordering < r.ordering) := by
          intro hc
          exact hqne (hc.1 ▸ hpar)
        by_cases hord : r.ordering = k - 1
        · have hsum : r.ordering + 1 = k := by omega
          have hc₃ : r.parent_id = q ∧ t ≤ r.ordering := ⟨hpar, by omega⟩
          simp [hpar, hord, hsum, hnc₂, hc₃]
          exact ⟨Or.inl hne, hk⟩
        · have hb1 : (r.ordering + 1 == k) = false := by
            simp only [beq_eq_false_iff_ne, ne_eq]
            omega
          have hb2 : (r.ordering == k - 1) = false := by
            simp only [beq_eq_false_iff_ne, ne_eq]
            omega
          simp [hpar, hb1, hb2]
      · simp [hpar]
    · rw [if_neg hk]
      refine countP_eq_zero_of_not (fun r _ => ?_)
      intro hcontra
      simp only [Bool.and_eq_true, decide_eq_true_eq, beq_iff_eq] at hcontra
      obtain ⟨_, ⟨_, hta⟩, _, hordk⟩ := hcontra
      exact hk (by omega)
  have hX₃r₀ : (if (!decide (r₀.parent_id = r₀.parent_id ∧
        r₀.ordering < r₀.ordering)
      && (decide (r₀.parent_id = q ∧ t ≤ r₀.ordering) &&
        (({ r₀ with ordering := r₀.ordering + 1 } : Resource).parent_id == q
          &&
          ({ r₀ with ordering := r₀.ordering + 1 } : Resource).ordering ==
            k))) = true then 1 else 0 : ℕ) = 0 := by
    simp [hqne]
  have hX₄ : db.countP
      (fun r => !decide (r.parent_id = r₀.parent_id ∧
          r₀.ordering < r.ordering)
        && (!decide (r.parent_id = q ∧ t ≤ r.ordering) &&
          (r.parent_id == q && r.ordering == k))) =
      if k < t then childCountOrd db q k else 0 := by
    by_cases hk2 : k < t
    · rw [if_pos hk2]
      unfold childCountOrd
      refine countP_congr' (fun r _ => ?_)
      by_cases hpar : r.parent_id = q
      · have hnc₂ : ¬ (r.parent_id = r₀.parent_id ∧
            r₀.ordering < r.ordering) := by
          intro hc
          exact hqne (hc.1 ▸ hpar)
        by_cases hord : r.ordering = k
        · have hnc₃ : ¬ (r.parent_id = q ∧ t ≤ r.ordering) := by
            intro hc
            omega
          simp [hpar, hord, hnc₂, hnc₃]
          exact ⟨Or.inl hne, hk2⟩
        · have hb : (r.ordering == k) = false := by
            simp only [beq_eq_false_iff_ne, ne_eq]
            omega
          simp [hpar, hb]
      · simp [hpar]
    · rw [if_neg hk2]
      refine countP_eq_zero_of_not (fun r _ => ?_)
      intro hcontra
      simp only [Bool.and_eq_true, Bool.not_eq_true', decide_eq_false_iff_not,
        beq_iff_eq] at hcontra
      obtain ⟨_, hnc₃, hpar, hordk⟩ := hcontra
      exact hnc₃ ⟨hpar, by omega⟩
  have hX₄r₀ : (if (!decide (r₀.parent_id = r₀.parent_id ∧
        r₀.ordering < r₀.ordering)
      && (!decide (r₀.parent_id = q ∧ t ≤ r₀.ordering) &&
        (r₀.parent_id == q && r₀.ordering == k))) = true
        then 1 else 0 : ℕ) = 0 := by
    simp [hqne]
  rw [hT1, hT2, hT3eq, hT4eq]
  rw [hX₃, hX₃r₀, hX₄, hX₄r₀]
  have hck := hcont k
  have hck' := hcont (k - 1)
  rw [hck, hck']
  push_cast
  split_ifs <;> omega

/-- C1 counterexample: starting from an invariant-satisfying table, a
successful cross-branch `move_to_position` leaves the old parent's
children with a gap (P1's remaining children carry orderings 1 and 4). -/
theorem c1_contiguity_counterexample :
    move_to_position exDb7 4 2 (some (some 2)) =
      .ok [⟨1, none, 1, none, none⟩, ⟨2, none, 2, none, none⟩,
           ⟨3, some 1, 1, none, none⟩, ⟨4, some 2, 2, none, none⟩,
           ⟨5, some 1, 4, none, none⟩, ⟨6, some 2, 1, none, none⟩,
           ⟨7, some 2, 3, none, none⟩] ∧
    Contiguous exDb7 (some 1) ∧ Contiguous exDb7 (some 2) ∧
    ¬ Contiguous
        [⟨1, none, 1, none, none⟩, ⟨2, none, 2, none, none⟩,
         ⟨3, some 1, 1, none, none⟩, ⟨4, some 2, 2, none, none⟩,
         ⟨5, some 1, 4, none, none⟩, ⟨6, some 2, 1, none, none⟩,
         ⟨7, some 2, 3, none, none⟩] (some 1) := by
  refine ⟨by decide, ?_, ?_, ?_⟩
  · intro k
    simp only [exDb7, childCountOrd, childCount, List.countP_cons,
      List.countP_nil]
    simp only [beq_iff_eq, decide_eq_true_eq, reduceCtorEq, if_false]
    norm_num
    split_ifs <;> omega
  · intro k
    simp only [exDb7, childCountOrd, childCount, List.countP_cons,
      List.countP_nil]
    simp only [beq_iff_eq, decide_eq_true_eq, reduceCtorEq, if_false]
    norm_num
    split_ifs <;> omega
  · intro hcon
    exact absurd (hcon 2) (by decide)

/-- C1 (amended): assuming the sibling-ordering invariant held beforehand
and resource ids are unique, a successful same-branch reorder preserves
the invariant for the affected parent, and a successful cross-branch
reparent establishes it for the new parent's children; the old parent of a
cross-branch move is not covered (its children may be left with a gap). -/
theorem c1_contiguity_after_move {db db' : DB} {rid t : Int}
    {np : Option (Option Int)} {r₀ : Resource}
    (hids : (db.map (fun r => r.resource_id)).Nodup)
    (h₀ : findResource db rid = some r₀)
    (hok : move_to_position db rid t np = .ok db') :
    (np = none → Contiguous db r₀.parent_id → Contiguous db' r₀.parent_id) ∧
    (∀ q, np = some q → Contiguous db q → Contiguous db' q) := by
  constructor
  · rintro rfl hcont
    have hcopy := hok
    simp only [move_to_position, lock_resource_for_update, h₀, checkNewParent,
      effectiveParent] at hok
    by_cases hc1 : t = r₀.ordering ∧ True
    · rw [if_pos hc1] at hok
      simp at hok
    · rw [if_neg hc1] at hok
      by_cases hc2 : t < 1
      · rw [if_pos hc2] at hok
        simp at hok
      · rw [if_neg hc2] at hok
        by_cases hc3 : ((childCount db r₀.parent_id : Int) < t ∧ True) ∨
            (childCount db r₀.parent_id : Int) + 1 < t
        · rw [if_pos hc3] at hok
          simp at hok
        · rw [if_neg hc3] at hok
          have hne : t ≠ r₀.ordering := by simpa using hc1
          have h1 : 1 ≤ t := by omega
          have h2 : t ≤ (childCount db r₀.parent_id : Int) := by
            simp only [and_true] at hc3
            omega
          cases hpv : r₀.parent_id with
          | none =>
            simp only [hpv] at hok
            simp [sameBranchMove] at hok
          | some pv =>
            simp only [hpv] at hok
            cases hpar : findResource db pv with
            | none =>
              rw [hpar] at hok
              simp [sameBranchMove] at hok
            | some par =>
              have heval := move_same_eval h₀ hpv hpar hne h1 h2
              rw [heval] at hcopy
              have hdb' : db' = setOrdering (updateOrderingBetween db
                  r₀.parent_id (min r₀.ordering t) (max r₀.ordering t)
                  (if t < r₀.ordering then 1 else -1)) rid t :=
                (MoveResult.ok.inj hcopy).symm
              rw [hdb', sameBranch_result_map, hpv]
              have hcase : (t < r₀.ordering ∧
                  (if t < r₀.ordering then (1 : Int) else -1) = 1 ∧
                  min r₀.ordering t = t ∧
                  max r₀.ordering t = r₀.ordering) ∨
                  (r₀.ordering < t ∧
                  (if t < r₀.ordering then (1 : Int) else -1) = -1 ∧
                  min r₀.ordering t = r₀.ordering ∧
                  max r₀.ordering t = t) := by
                by_cases hdir : t < r₀.ordering
                · exact Or.inl ⟨hdir, if_pos hdir,
                    min_eq_right hdir.le, max_eq_left hdir.le⟩
                · have hlt : r₀.ordering < t := by omega
                  exact Or.inr ⟨hlt, if_neg hdir,
                    min_eq_left hlt.le, max_eq_right hlt.le⟩
              exact contiguous_same_branch hids h₀ hpv h1 (hpv ▸ h2) hcase
                (hpv ▸ hcont)
  · rintro q rfl hcont
    have hcopy := hok
    simp only [move_to_position, lock_resource_for_update, h₀,
      effectiveParent] at hok
    cases hchk : checkNewParent db rid r₀ (some q) with
    | some e =>
      rw [hchk] at hok
      simp at hok
    | none =>
      rw [hchk] at hok
      have hne : q ≠ r₀.parent_id := by
        intro hc
        simp only [checkNewParent, if_pos hc] at hchk
        exact Option.noConfusion hchk
      rw [if_neg (show ¬ (t = r₀.ordering ∧
          (some q : Option (Option Int)) = none) by simp)] at hok
      by_cases hc2 : t < 1
      · rw [if_pos hc2] at hok
        simp at hok
      · rw [if_neg hc2] at hok
        by_cases hc3 : ((childCount db q : Int) < t ∧
            (some q : Option (Option Int)) = none) ∨
            (childCount db q : Int) + 1 < t
        · rw [if_pos hc3] at hok
          simp at hok
        · rw [if_neg hc3] at hok
          have h1 : 1 ≤ t := by omega
          have h2 : t ≤ (childCount db q : Int) + 1 := by
            simp only [reduceCtorEq, and_false, false_or] at hc3
            omega
          have hdb' : db' = crossBranchMove db r₀ q t :=
            (MoveResult.ok.inj hok).symm
          rw [hdb', crossBranch_result_map db r₀ q t hne,
            show r₀.resource_id = rid from findResource_id h₀]
          exact contiguous_cross_branch hids h₀ hne h1 h2 hcont

/-- The A,B,C table satisfies the sibling-ordering invariant under parent
10. -/
theorem exDbABC_contiguous : Contiguous exDbABC (some 10) := by
  intro k
  simp only [exDbABC, childCountOrd, childCount, List.countP_cons,
    List.countP_nil]
  simp only [beq_iff_eq, decide_eq_true_eq, reduceCtorEq, if_false]
  norm_num
  split_ifs <;> omega

/-- C1 witness: the same-branch reorder `move_to_position(C, 1)` keeps the
parent's children at exactly the orderings 1..3. -/
theorem c1_contiguity_after_move_witness :
    (exDbABC.map (fun r => r.resource_id)).Nodup ∧
    findResource exDbABC 3 = some ⟨3, some 10, 3, none, none⟩ ∧
    move_to_position exDbABC 3 1 none =
      .ok [⟨10, none, 1, none, none⟩, ⟨1, some 10, 2, none, none⟩,
           ⟨2, some 10, 3, none, none⟩, ⟨3, some 10, 1, none, none⟩] ∧
    Contiguous [⟨10, none, 1, none, none⟩, ⟨1, some 10, 2, none, none⟩,
      ⟨2, some 10, 3, none, none⟩, ⟨3, some 10, 1, none, none⟩] (some 10) :=
  ⟨by decide, by decide, by decide,
    (@c1_contiguity_after_move exDbABC
      [⟨10, none, 1, none, none⟩, ⟨1, some 10, 2, none, none⟩,
       ⟨2, some 10, 3, none, none⟩, ⟨3, some 10, 1, none, none⟩]
      3 1 none ⟨3, some 10, 3, none, none⟩
      (by decide) (by decide) (by decide)).1 rfl exDbABC_contiguous⟩

end Ziggurat
